import Mathlib

/-!
Shallow embedding of the process memory-space core of the maestro kernel
(`src/process/mem_space/mod.rs` and `src/process/mem_space/mapping.rs`).

Modelling conventions:
- Virtual and physical addresses are natural numbers.  The kernel works on
  addresses below `2 ^ 32`, where `usize` arithmetic does not wrap, so plain
  `Nat` arithmetic is faithful on the modelled address window.
- Page contents are abstracted to one value per 4 KiB frame: `util::bzero`
  writes `0`, and `ptr::copy_nonoverlapping` of a whole page copies the value.
- Kernel-heap and page-table allocations (`Box::new`, `VMem::map`) are
  modelled as always succeeding; no claim below exercises those failure
  paths.  The buddy allocator for USER-zone frames is modelled as a free
  list and fails with `ENOMEM` when the list is empty.
- `VMem` handler objects are identified by a numeric id (standing for the
  `NonNull<dyn VMem>` pointer); the page table acted on by the mapping
  operations is carried in the `Engine` state.
-/

/-- The page size, `memory::PAGE_SIZE` (4 KiB on x86-32). -/
def PAGE_SIZE : Nat := 4096

/-- `MAPPING_FLAG_WRITE` from `mem_space/mod.rs`. -/
def MAPPING_FLAG_WRITE : Nat := 1

/-- `MAPPING_FLAG_EXEC` from `mem_space/mod.rs`. -/
def MAPPING_FLAG_EXEC : Nat := 2

/-- `MAPPING_FLAG_USER` from `mem_space/mod.rs`. -/
def MAPPING_FLAG_USER : Nat := 4

/-- `MAPPING_FLAG_NOLAZY` from `mem_space/mod.rs`. -/
def MAPPING_FLAG_NOLAZY : Nat := 8

/-- `MAPPING_FLAG_SHARED` from `mem_space/mod.rs`. -/
def MAPPING_FLAG_SHARED : Nat := 16

/-- Modelled from the spec: the x86 page-table write bit (`vmem::x86::FLAG_WRITE`,
source file not in the tree). -/
def FLAG_WRITE : Nat := 2

/-- Modelled from the spec: the x86 page-table user bit (`vmem::x86::FLAG_USER`). -/
def FLAG_USER : Nat := 4

/-- Modelled from the spec: the PRESENT bit of the x86 page-fault error code
(`vmem::x86::PAGE_FAULT_PRESENT`); only this bit is consulted. -/
def PAGE_FAULT_PRESENT : Nat := 1

/-- `GAPS_BUCKETS_COUNT` from `mem_space/mod.rs`. -/
def GAPS_BUCKETS_COUNT : Nat := 8

/-- Errors produced by the memory-space operations (`crate::errno`). -/
inductive Errno where
  | ENOMEM
  | EINVAL
deriving DecidableEq

instance {ε α : Type} [DecidableEq ε] [DecidableEq α] : DecidableEq (Except ε α) :=
  fun x y =>
    match x, y with
    | .ok a, .ok b =>
      if h : a = b then .isTrue (by rw [h]) else .isFalse (by simp [h])
    | .ok _, .error _ => .isFalse (by simp)
    | .error _, .ok _ => .isFalse (by simp)
    | .error a, .error b =>
      if h : a = b then .isTrue (by rw [h]) else .isFalse (by simp [h])

/-- Association-list lookup (flat map keyed by `Nat`). -/
def alGet {α : Type} (l : List (Nat × α)) (k : Nat) : Option α :=
  match l with
  | [] => none
  | (k', v) :: t => if k' = k then some v else alGet t k

/-- Remove the binding of key `k`, if any. -/
def alErase {α : Type} (l : List (Nat × α)) (k : Nat) : List (Nat × α) :=
  match l with
  | [] => []
  | (k', v) :: t => if k' = k then alErase t k else (k', v) :: alErase t k

/-- Set key `k` to value `v` (replacing any previous binding). -/
def alSet {α : Type} (l : List (Nat × α)) (k : Nat) (v : α) : List (Nat × α) :=
  (k, v) :: alErase l k

/-- Modelled from the spec: the physical reference counter
(`physical_ref_counter.rs` is not in the tree).  A map from frame address to a
positive share count, `0` represented by absence; `is_shared` is `count > 1`. -/
def refIsShared (refs : List (Nat × Nat)) (f : Nat) : Bool :=
  match alGet refs f with
  | some c => 1 < c
  | none => false

/-- Modelled from the spec: `PhysRefCounter::increment` — bump the count if
present, else insert with count `1`. -/
def refIncrement (refs : List (Nat × Nat)) (f : Nat) : List (Nat × Nat) :=
  match alGet refs f with
  | some c => alSet refs f (c + 1)
  | none => alSet refs f 1

/-- The state the mapping engine acts on: the page table of the owning memory
space's `VMem`, the global physical reference counter, the contents of
physical frames, the USER-zone buddy free list, and the global default page. -/
structure Engine where
  /-- The `VMem` page table: virtual page address to (physical frame, flags). -/
  vmem : List (Nat × Nat × Nat)
  /-- The global `PHYSICAL_REF_COUNTER` contents. -/
  refs : List (Nat × Nat)
  /-- Contents of physical frames (absent means zero-filled). -/
  mem : List (Nat × Nat)
  /-- The USER-zone buddy allocator free list. -/
  buddyUser : List Nat
  /-- The lazily allocated global `DEFAULT_PAGE` (KERNEL zone). -/
  defaultPage : Nat
deriving DecidableEq

/-- `VMem::translate`: the physical address a virtual address maps to. -/
def Engine.translate (e : Engine) (virt : Nat) : Option Nat :=
  (alGet e.vmem virt).map (fun p => p.1)

/-- `VMem::map(phys, virt, flags)` (modelled as always succeeding). -/
def Engine.vmemMap (e : Engine) (phys virt flags : Nat) : Engine :=
  { e with vmem := alSet e.vmem virt (phys, flags) }

/-- Read the page content behind a virtual address through the current
translation (reads as the fault path does, while the page is mapped). -/
def Engine.readVirt (e : Engine) (virt : Nat) : Nat :=
  match e.translate virt with
  | some p => (alGet e.mem p).getD 0
  | none => 0

/-- Write a page content through the current translation of `virt`. -/
def Engine.writeVirt (e : Engine) (virt c : Nat) : Engine :=
  match e.translate virt with
  | some p => { e with mem := alSet e.mem p c }
  | none => e

/-- `buddy::alloc(0, FLAG_ZONE_TYPE_USER)`: hand out the next free USER frame. -/
def buddyAllocUser (e : Engine) : Except Errno (Nat × Engine) :=
  match e.buddyUser with
  | [] => .error .ENOMEM
  | p :: rest => .ok (p, { e with buddyUser := rest })

/-- `MemMapping` (`mapping.rs`): a virtual region `[begin, begin + size pages)`
with flags and a pointer (here: id) to the owning space's `VMem` handler. -/
structure MemMapping where
  begin : Nat
  size : Nat
  flags : Nat
  vmem : Nat
deriving DecidableEq

/-- `MemMapping::contains_ptr`. -/
def MemMapping.contains_ptr (m : MemMapping) (ptr : Nat) : Bool :=
  decide (m.begin ≤ ptr) && decide (ptr < m.begin + m.size * PAGE_SIZE)

/-- `MemMapping::get_physical_page`: the physical page at page offset `offset`,
`none` if untranslated or translated to the default page. -/
def MemMapping.get_physical_page (m : MemMapping) (e : Engine) (offset : Nat) :
    Option Nat :=
  match e.translate (m.begin + offset * PAGE_SIZE) with
  | none => none
  | some phys => if phys != e.defaultPage then some phys else none

/-- `MemMapping::is_shared`: whether the frame at `offset` has share count `> 1`. -/
def MemMapping.is_shared (m : MemMapping) (e : Engine) (offset : Nat) : Bool :=
  match m.get_physical_page e offset with
  | some phys => refIsShared e.refs phys
  | none => false

/-- `MemMapping::is_cow`: shared frame and mapping not `SHARED`. -/
def MemMapping.is_cow (m : MemMapping) (e : Engine) (offset : Nat) : Bool :=
  m.is_shared e offset && (m.flags &&& MAPPING_FLAG_SHARED == 0)

/-- `MemMapping::get_vmem_flags`: derive the page-table flags for one page. -/
def MemMapping.get_vmem_flags (m : MemMapping) (e : Engine) (allocated : Bool)
    (offset : Nat) : Nat :=
  (if (m.flags &&& MAPPING_FLAG_WRITE != 0) && allocated && !(m.is_cow e offset)
    then FLAG_WRITE else 0) |||
  (if m.flags &&& MAPPING_FLAG_USER != 0 then FLAG_USER else 0)

/-- The `for i in 0..self.size` loop of `MemMapping::map_default`, at page `i`
with `fuel` pages left to map. -/
def MemMapping.mapDefaultLoop (m : MemMapping) : Nat → Nat → Engine →
    Except Errno Engine
  | _, 0, e => .ok e
  | i, fuel + 1, e =>
    let nolazy := m.flags &&& MAPPING_FLAG_NOLAZY != 0
    let fl := m.get_vmem_flags e nolazy i
    let phys : Except Errno (Nat × Engine) :=
      if nolazy then buddyAllocUser e else .ok (e.defaultPage, e)
    match phys with
    | .error er => .error er
    | .ok (phys, e1) =>
      let virt := m.begin + i * PAGE_SIZE
      m.mapDefaultLoop (i + 1) fuel (e1.vmemMap phys virt fl)

/-- `MemMapping::map_default`: map every page to the default page (read-only),
or to a freshly allocated USER frame when the mapping is `NOLAZY`. -/
def MemMapping.map_default (m : MemMapping) (e : Engine) : Except Errno Engine :=
  m.mapDefaultLoop 0 m.size e

/-- `MemMapping::map` — resolve a fault at page `offset` (the spec's
`fault_in`).  The temporary-stack `Box` and the COW buffer `Box` are modelled
as always allocatable; the closure run on the temporary stack becomes
`writeVirt` (copy the COW buffer, or zero the page). -/
def MemMapping.map (m : MemMapping) (e : Engine) (offset : Nat) :
    Except Errno Engine :=
  let virt := m.begin + offset * PAGE_SIZE
  let cow := m.is_cow e offset
  let cowBuffer : Option Nat := if cow then some (e.readVirt virt) else none
  let sourcePhys : Option Nat := if cow then m.get_physical_page e offset else none
  let fl := m.get_vmem_flags e true offset
  let mapped : Except Errno Engine :=
    match sourcePhys with
    | some phys => .ok (e.vmemMap phys virt fl)
    | none =>
      match buddyAllocUser e with
      | .error er => .error er
      | .ok (phys, e1) => .ok (e1.vmemMap phys virt fl)
  match mapped with
  | .error er => .error er
  | .ok e1 => .ok (e1.writeVirt virt (cowBuffer.getD 0))

/-- `MemMapping::update_vmem`: refresh the protection bits of one page. -/
def MemMapping.update_vmem (m : MemMapping) (e : Engine) (offset : Nat) : Engine :=
  let virt := m.begin + offset * PAGE_SIZE
  match e.translate virt with
  | none => e
  | some phys =>
    let allocated := phys != e.defaultPage
    e.vmemMap phys virt (m.get_vmem_flags e allocated offset)

/-- Modelled from the spec: `vmem::clone` produces a fresh `VMem` handler
object, i.e. a pointer distinct from the one being cloned. -/
def vmem_clone (vmemId : Nat) : Nat := vmemId + 1

/-- The reference-counter loop of `MemMapping::fork`: increment the share
count of every page currently translated to a non-default frame. -/
def MemMapping.forkRefs (m : MemMapping) (e : Engine) : List (Nat × Nat) :=
  (List.range m.size).foldl
    (fun acc i =>
      match m.get_physical_page e i with
      | some phys => refIncrement acc phys
      | none => acc)
    e.refs

/-- `MemMapping::fork`: build the twin mapping (same `begin`, `size`, `flags`,
and — as in the source — the same `vmem` pointer), increment the share counts,
and insert the twin into `container`.  Allocation failures of the counter and
the tree are modelled as succeeding. -/
def MemMapping.fork (m : MemMapping) (e : Engine) (container : List MemMapping) :
    MemMapping × List MemMapping × Engine :=
  let new_mapping : MemMapping :=
    { begin := m.begin, size := m.size, flags := m.flags, vmem := m.vmem }
  (new_mapping, new_mapping :: container, { e with refs := m.forkRefs e })

/-- Modelled from the spec: `util::math::log2` (source not in the tree), the
floor of the base-2 logarithm, computed with structural fuel so that it
reduces by `decide`. -/
def log2fuel : Nat → Nat → Nat
  | 0, _ => 0
  | fuel + 1, n => if 2 ≤ n then log2fuel fuel (n / 2) + 1 else 0

/-- Modelled from the spec: `⌊log₂ n⌋` (and `0` at `0`). -/
def log2 (n : Nat) : Nat := log2fuel n n

/-- `MemGap` — modelled from the spec (`mem_space/gap.rs` of this revision is
not in the tree): a free virtual region of `size` pages starting at `begin`. -/
structure MemGap where
  begin : Nat
  size : Nat
deriving DecidableEq

/-- `MemGap::consume` — modelled from the spec's consume protocol: carving
`size` pages off the low end yields a residual gap of `size' = gap.size − size`
pages at `gap.begin + size·PAGE_SIZE`, or nothing when fully consumed. -/
def MemGap.consume (g : MemGap) (size : Nat) : Option MemGap :=
  if size < g.size then
    some { begin := g.begin + size * PAGE_SIZE, size := g.size - size }
  else
    none

/-- `MemSpace::get_gap_bucket_index`. -/
def get_gap_bucket_index (size : Nat) : Nat :=
  min (log2 size) (GAPS_BUCKETS_COUNT - 1)

/-- The `n`-th bucket of the `gaps_buckets` array (missing entries are empty). -/
def nthBucket : List (List MemGap) → Nat → List MemGap
  | [], _ => []
  | b :: _, 0 => b
  | _ :: t, i + 1 => nthBucket t i

/-- Replace the `i`-th bucket by the image under `f` (out-of-range: no-op). -/
def modifyNth (f : List MemGap → List MemGap) : Nat → List (List MemGap) →
    List (List MemGap)
  | _, [] => []
  | 0, b :: t => f b :: t
  | i + 1, b :: t => b :: modifyNth f i t

/-- `List::unlink_from` on an intrusive bucket list: remove the node of the gap
whose `begin` is `b` (the first occurrence). -/
def eraseByBegin (b : Nat) : List MemGap → List MemGap
  | [] => []
  | g :: t => if g.begin = b then t else g :: eraseByBegin b t

/-- The two gap indices of a `MemSpace`: the ordered index (`gaps` binary tree,
keyed by `begin`) and the size-bucketed index (`gaps_buckets`). -/
structure GapReg where
  gaps : List MemGap
  buckets : List (List MemGap)
deriving DecidableEq

/-- `MemSpace::gap_insert`: insert into the ordered index and push onto the
front of the size bucket chosen by the gap's size. -/
def GapReg.gap_insert (r : GapReg) (g : MemGap) : GapReg :=
  { gaps := g :: r.gaps,
    buckets := modifyNth (fun b => g :: b) (get_gap_bucket_index g.size) r.buckets }

/-- `MemSpace::gap_remove`: look the gap up by `begin` (the source `unwrap`s, so
the caller guarantees presence), unlink it from its size bucket, and remove it
from the ordered index. -/
def GapReg.gap_remove (r : GapReg) (b : Nat) : GapReg :=
  match r.gaps.find? (fun g => g.begin == b) with
  | none => r
  | some g =>
    { gaps := eraseByBegin b r.gaps,
      buckets := modifyNth (eraseByBegin b) (get_gap_bucket_index g.size) r.buckets }

/-- The inner `while` loop of `MemSpace::gap_get`: scan one bucket front to
back for a gap of size at least `size`. -/
def scanBucket (size : Nat) : List MemGap → Option MemGap
  | [] => none
  | g :: t => if size ≤ g.size then some g else scanBucket size t

/-- The outer `for i in bucket_index..GAPS_BUCKETS_COUNT` loop of
`MemSpace::gap_get`, at bucket `i` with `fuel` iterations left. -/
def gapGetFrom (buckets : List (List MemGap)) (size : Nat) : Nat → Nat →
    Option MemGap
  | 0, _ => none
  | fuel + 1, i =>
    if i < GAPS_BUCKETS_COUNT then
      match scanBucket size (nthBucket buckets i) with
      | some g => some g
      | none => gapGetFrom buckets size fuel (i + 1)
    else
      none

/-- `MemSpace::gap_get`: find a gap of at least `size` pages, walking the size
buckets upward from `min(⌊log₂ size⌋, GAPS_BUCKETS_COUNT − 1)`. -/
def gap_get (buckets : List (List MemGap)) (size : Nat) : Option MemGap :=
  gapGetFrom buckets size GAPS_BUCKETS_COUNT (get_gap_bucket_index size)

/-- `MemSpace` (`mem_space/mod.rs`): the gap indices, the mapping registry
(binary tree keyed by `begin`), and the space's `VMem` handler (its id). -/
structure MemSpace where
  gaps : GapReg
  mappings : List MemMapping
  vmemId : Nat
deriving DecidableEq

/-- `MemSpace::get_mapping_for`: the registry's `cmp_get` returns the mapping
whose half-open interval contains `ptr`, if any. -/
def MemSpace.get_mapping_for (mappings : List MemMapping) (ptr : Nat) :
    Option MemMapping :=
  mappings.find? (fun m => m.contains_ptr ptr)

/-- `MemSpace::map`: pick a gap by first-fit-by-bucket, register the mapping,
`map_default` it, insert the residual gap and drop the consumed one.  An exact
`hint` is unimplemented in the source (`Err(ENOMEM)`).  Container insertions
are modelled as succeeding; on a `map_default` failure the source removes the
mapping again and its engine rollback is itself the `unmap` TODO stub, so the
error case returns the pre-call registry state. -/
def MemSpace.map (s : MemSpace) (e : Engine) (ptr : Option Nat)
    (size flags : Nat) : (Except Errno Nat) × MemSpace × Engine :=
  match ptr with
  | some _ => (.error .ENOMEM, s, e)
  | none =>
    match gap_get s.gaps.buckets size with
    | none => (.error .ENOMEM, s, e)
    | some gap =>
      let m : MemMapping :=
        { begin := gap.begin, size := size, flags := flags, vmem := s.vmemId }
      let s1 : MemSpace := { s with mappings := m :: s.mappings }
      match m.map_default e with
      | .error _ => (.error .ENOMEM, s, e)
      | .ok e1 =>
        let s2 : MemSpace :=
          match gap.consume size with
          | some new_gap => { s1 with gaps := s1.gaps.gap_insert new_gap }
          | none => s1
        let s3 : MemSpace := { s2 with gaps := s2.gaps.gap_remove gap.begin }
        (.ok m.begin, s3, e1)

/-- `MemSpace::unmap`: the body of the source function is a bare `// TODO`
comment — it changes nothing. -/
def MemSpace.unmap (s : MemSpace) (_ptr _size : Nat) : MemSpace :=
  s

/-- Outcome of `MemSpace::handle_page_fault`: an ordinary boolean return, or a
kernel panic (`unwrap` on `None`, or the OOM `kernel_panic!`). -/
inductive PFResult where
  | ret (b : Bool)
  | panicked
deriving DecidableEq

/-- `MemSpace::handle_page_fault`: return `false` if the PRESENT bit is clear;
`unwrap` the containing mapping (panicking when there is none); fault the page
in, retrying once before panicking. -/
def MemSpace.handle_page_fault (s : MemSpace) (e : Engine) (virt code : Nat) :
    PFResult × Engine :=
  if code &&& PAGE_FAULT_PRESENT = 0 then
    (.ret false, e)
  else
    match MemSpace.get_mapping_for s.mappings virt with
    | none => (.panicked, e)
    | some m =>
      let offset := (virt - m.begin) / PAGE_SIZE
      match m.map e offset with
      | .ok e1 => (.ret true, e1)
      | .error _ =>
        match m.map e offset with
        | .ok e1 => (.ret true, e1)
        | .error _ => (.panicked, e)

/-- COW scenario input: one page at `0x40000000`, `WRITE | USER`, currently
translated to frame `0x2000` whose share count is `2`; a free USER frame
`0x3000` is available and the default page is `0x1000`. -/
def M1 : MemMapping := { begin := 0x40000000, size := 1, flags := 5, vmem := 0 }

/-- Engine state for the COW scenario of `M1`. -/
def E1 : Engine :=
  { vmem := [(0x40000000, (0x2000, 6))], refs := [(0x2000, 2)],
    mem := [(0x2000, 171)], buddyUser := [0x3000], defaultPage := 0x1000 }

/-- Owned-exclusive scenario input: one page, `WRITE | USER`, translated to
frame `0x2000` with share count `1` and page content `205`. -/
def M3 : MemMapping := { begin := 0x40000000, size := 1, flags := 5, vmem := 0 }

/-- Engine state for the owned-exclusive scenario of `M3`. -/
def E3 : Engine :=
  { vmem := [(0x40000000, (0x2000, 6))], refs := [(0x2000, 1)],
    mem := [(0x2000, 205)], buddyUser := [0x3000], defaultPage := 0x1000 }

/-- Fork scenario input: two pages with `vmem` pointer id `7`; page 0 is
translated to frame `0x2000` (count 1), page 1 to the default page. -/
def M4 : MemMapping := { begin := 0x40000000, size := 2, flags := 5, vmem := 7 }

/-- Engine state for the fork scenario of `M4`. -/
def E4 : Engine :=
  { vmem := [(0x40000000, (0x2000, 6)), (0x40001000, (0x1000, 4))],
    refs := [(0x2000, 1)], mem := [], buddyUser := [], defaultPage := 0x1000 }

/-- NOLAZY scenario input: one page, `WRITE | USER | NOLAZY`. -/
def M5 : MemMapping := { begin := 0x40000000, size := 1, flags := 13, vmem := 0 }

/-- Engine state for the NOLAZY scenario of `M5`: empty reference counter, one
free USER frame `0x3000`. -/
def E5 : Engine :=
  { vmem := [], refs := [], mem := [], buddyUser := [0x3000], defaultPage := 0x1000 }

/-- Round-trip scenario: a memory space with a single 4-page gap at
`0x40000000` (in bucket `⌊log₂ 4⌋ = 2`) and no mappings. -/
def S6 : MemSpace :=
  { gaps := { gaps := [{ begin := 0x40000000, size := 4 }],
              buckets := [[], [], [{ begin := 0x40000000, size := 4 }],
                          [], [], [], [], []] },
    mappings := [], vmemId := 0 }

/-- Engine state for the round-trip scenario of `S6`. -/
def E6 : Engine :=
  { vmem := [], refs := [], mem := [], buddyUser := [], defaultPage := 0x1000 }

/-- Fault-dispatch scenario: a memory space with no mappings at all. -/
def S2 : MemSpace :=
  { gaps := { gaps := [], buckets := [[], [], [], [], [], [], [], []] },
    mappings := [], vmemId := 0 }

/-- Engine state for the fault-dispatch scenario of `S2`. -/
def E2 : Engine :=
  { vmem := [], refs := [], mem := [], buddyUser := [], defaultPage := 0x1000 }

/-- Zero-size-map scenario: same layout as the round-trip scenario. -/
def S9 : MemSpace :=
  { gaps := { gaps := [{ begin := 0x40000000, size := 4 }],
              buckets := [[], [], [{ begin := 0x40000000, size := 4 }],
                          [], [], [], [], []] },
    mappings := [], vmemId := 0 }

/-- Engine state for the zero-size-map scenario of `S9`. -/
def E9 : Engine :=
  { vmem := [], refs := [], mem := [], buddyUser := [], defaultPage := 0x1000 }

/-- Default-page scenario: one page translated to the default page `0x1000`,
whose entry in the reference counter carries a large count (`99`) that must
never be consulted. -/
def M10 : MemMapping := { begin := 0x40000000, size := 1, flags := 5, vmem := 0 }

/-- Engine state for the default-page scenario of `M10`. -/
def E10 : Engine :=
  { vmem := [(0x40000000, (0x1000, 4))], refs := [(0x1000, 99)],
    mem := [], buddyUser := [], defaultPage := 0x1000 }

/-- The bucket-consistency invariant of the two gap indices: the bucket array
has `GAPS_BUCKETS_COUNT` buckets; gap begins are unique in the ordered index
and across the buckets; every gap of the ordered index sits in the bucket
selected by `get_gap_bucket_index` of its size; and everything in a bucket is
a gap of the ordered index sitting in its own size bucket (so a gap absent
from the ordered index is in no bucket, and no gap is in two buckets). -/
def GapInv (r : GapReg) : Prop :=
  r.buckets.length = GAPS_BUCKETS_COUNT ∧
  (r.gaps.map MemGap.begin).Nodup ∧
  (r.buckets.flatten.map MemGap.begin).Nodup ∧
  (∀ g ∈ r.gaps, g ∈ nthBucket r.buckets (get_gap_bucket_index g.size)) ∧
  (∀ j < GAPS_BUCKETS_COUNT, ∀ g ∈ nthBucket r.buckets j,
      g ∈ r.gaps ∧ j = get_gap_bucket_index g.size)

instance (r : GapReg) : Decidable (GapInv r) := by
  unfold GapInv
  infer_instance

/-- The states reachable by sequences of `gap_insert` / `gap_remove`, each call
meeting the precondition the source relies on (`gap_insert` is given a fresh
`begin` — the tree is keyed by `begin` and the source `unwrap`s the lookup
after inserting; `gap_remove` is given the `begin` of a present gap — the
source `unwrap`s the lookup). -/
inductive GapReach : GapReg → GapReg → Prop where
  | refl (r : GapReg) : GapReach r r
  | insert {r0 r : GapReg} (g : MemGap) : GapReach r0 r →
      (∀ g' ∈ r.gaps, g'.begin ≠ g.begin) → GapReach r0 (r.gap_insert g)
  | remove {r0 r : GapReg} (b : Nat) : GapReach r0 r →
      (∃ g ∈ r.gaps, g.begin = b) → GapReach r0 (r.gap_remove b)

/-- Claim C1: on a COW page (`is_cow = true`: frame `0x2000` shared, mapping
not `SHARED`), `MemMapping::map` does NOT allocate a fresh frame: it remaps
the old shared frame `0x2000` at the faulting address (without the write bit —
the installed flags are `FLAG_USER` only), leaves the physical reference
counter untouched and leaves the buddy free list untouched.  This contradicts
the claim (and the function's own doc comment, which promises a new physical
page with the same data); the refcount transfer is an explicit `TODO` at
`mapping.rs:230-231`. -/
theorem c1_cow_keeps_old_frame :
    M1.is_cow E1 0 = true ∧
    (MemMapping.map M1 E1 0).toOption.map
        (fun e => (e.translate 0x40000000, alGet e.vmem 0x40000000, e.refs,
          e.buddyUser))
      = some (some 0x2000, some (0x2000, FLAG_USER), [(0x2000, 2)], [0x3000]) := by
  decide

/-- Claim C3: on an owned-exclusive page (frame `0x2000`, share count `1`,
mapping not `SHARED`), `MemMapping::map` is NOT a no-op: it takes the non-COW
branch, allocates the fresh frame `0x3000`, remaps the page to it and zeroes
it, so the translation changes and the page content `205` is lost. -/
theorem c3_owned_exclusive_not_idempotent :
    M3.is_cow E3 0 = false ∧ refIsShared E3.refs 0x2000 = false ∧
    (MemMapping.map M3 E3 0).toOption.map
        (fun e => (e.translate 0x40000000, e.readVirt 0x40000000, e.refs))
      = some (some 0x3000, 0, [(0x2000, 1)]) := by
  decide

/-- Claim C4: the twin mapping built by `MemMapping::fork` keeps the parent's
`vmem` pointer (`self.vmem`, `mapping.rs:304`) instead of pointing at the
cloned `VMem` of the child memory space; the share count of the one translated
non-default page is incremented (default-mapped page 1 is skipped), and the
twin is inserted into the container. -/
theorem c4_fork_parent_vmem :
    (MemMapping.fork M4 E4 []).1.vmem = M4.vmem ∧
    vmem_clone M4.vmem ≠ M4.vmem ∧
    (MemMapping.fork M4 E4 []).2.2.refs = [(0x2000, 2)] ∧
    (MemMapping.fork M4 E4 []).2.1 = [(MemMapping.fork M4 E4 []).1] := by
  decide

/-- Claim C5: `MemMapping::map_default` on a `NOLAZY` mapping allocates the
USER frame `0x3000` and maps it, but never increments the frame's share count:
the reference counter is still empty afterwards. -/
theorem c5_nolazy_no_increment :
    (MemMapping.map_default M5 E5).toOption.map
        (fun e => (e.translate 0x40000000, e.refs, e.buddyUser))
      = some (some 0x3000, [], []) := by
  decide

/-- Claim C6: `map(None, 1, 0)` on `S6` succeeds at `0x40000000`, but
`unmap(0x40000000, 1)` afterwards is the source's `// TODO` stub and changes
nothing: the mapping registry still holds the new mapping and the gap set
differs from the pre-`map` one, so the round-trip does not restore the
pre-`map` state. -/
theorem c6_map_unmap_not_roundtrip :
    (MemSpace.map S6 E6 none 1 0).1 = .ok 0x40000000 ∧
    MemSpace.unmap (MemSpace.map S6 E6 none 1 0).2.1 0x40000000 1
      = (MemSpace.map S6 E6 none 1 0).2.1 ∧
    (MemSpace.map S6 E6 none 1 0).2.1.mappings ≠ S6.mappings ∧
    (MemSpace.map S6 E6 none 1 0).2.1.gaps ≠ S6.gaps := by
  decide

/-- Claim C9: `map(None, 0, WRITE)` performs no size check: it finds a gap
(any gap has size `≥ 0`), registers a zero-size mapping — violating the
`debug_assert!(size > 0)` of `MemMapping::new` — and returns `Ok(0x40000000)`
instead of an invalid-argument error, mutating the mapping registry. -/
theorem c9_map_zero_size_not_einval :
    (MemSpace.map S9 E9 none 0 1).1 = .ok 0x40000000 ∧
    (MemSpace.map S9 E9 none 0 1).2.1.mappings
      = [{ begin := 0x40000000, size := 0, flags := 1, vmem := 0 }] ∧
    (MemSpace.map S9 E9 none 0 1).2.1.mappings ≠ S9.mappings := by
  decide

/-- Claim C2 (counterexample): with the PRESENT bit set and no mapping
containing the address, `handle_page_fault` does not return `false` — it
panics (`unwrap` of `None` at `mod.rs:279`). -/
theorem c2_no_mapping_counterexample :
    MemSpace.get_mapping_for S2.mappings 0x40000000 = none ∧
    (MemSpace.handle_page_fault S2 E2 0x40000000 1).1 ≠ PFResult.ret false ∧
    (MemSpace.handle_page_fault S2 E2 0x40000000 1).1 = PFResult.panicked := by
  decide

/-- Claim C2 (amended): `handle_page_fault` returns `false` and resolves
nothing whenever the PRESENT bit of `code` is clear; when the PRESENT bit is
set and no mapping in the registry contains `virt_addr`, it panics (leaving
the state unchanged) instead of returning `false`. -/
theorem c2_fault_dispatch (s : MemSpace) (e : Engine) (virt code : Nat) :
    (code &&& PAGE_FAULT_PRESENT = 0 →
      MemSpace.handle_page_fault s e virt code = (PFResult.ret false, e)) ∧
    (code &&& PAGE_FAULT_PRESENT ≠ 0 →
      MemSpace.get_mapping_for s.mappings virt = none →
      MemSpace.handle_page_fault s e virt code = (PFResult.panicked, e)) := by
  constructor
  · intro h
    simp [MemSpace.handle_page_fault, h]
  · intro h hnone
    simp [MemSpace.handle_page_fault, h, hnone]

/-- Claim C2 (witness for the amended theorem): both hypotheses discharged on
the concrete no-mapping space `S2`. -/
theorem c2_fault_dispatch_witness :
    MemSpace.handle_page_fault S2 E2 0x40000000 0 = (PFResult.ret false, E2) ∧
    MemSpace.handle_page_fault S2 E2 0x40000000 1 = (PFResult.panicked, E2) :=
  ⟨(c2_fault_dispatch S2 E2 0x40000000 0).1 (by decide),
   (c2_fault_dispatch S2 E2 0x40000000 1).2 (by decide) (by decide)⟩

/-- Claim C10: a page that is untranslated, or translated to the default page,
has no physical page, is not shared and is not COW — for every reference
counter content, so the default page's share count is never consulted. -/
theorem c10_default_page_never_cow (m : MemMapping) (e : Engine) (offset : Nat)
    (h : e.translate (m.begin + offset * PAGE_SIZE) = none ∨
         e.translate (m.begin + offset * PAGE_SIZE) = some e.defaultPage) :
    m.get_physical_page e offset = none ∧
    m.is_shared e offset = false ∧ m.is_cow e offset = false := by
  have hp : m.get_physical_page e offset = none := by
    rcases h with h | h <;> simp [MemMapping.get_physical_page, h]
  refine ⟨hp, ?_, ?_⟩
  · simp [MemMapping.is_shared, hp]
  · simp [MemMapping.is_cow, MemMapping.is_shared, hp]

/-- Claim C10 (witness): the default-mapped page of `M10`, whose default-page
refcount entry is `99`, is neither shared nor COW. -/
theorem c10_default_page_never_cow_witness :
    (E10.translate (M10.begin + 0 * PAGE_SIZE) = some E10.defaultPage) ∧
    (M10.get_physical_page E10 0 = none ∧
      M10.is_shared E10 0 = false ∧ M10.is_cow E10 0 = false) :=
  ⟨by decide, c10_default_page_never_cow M10 E10 0 (Or.inr (by decide))⟩

/-- `log2` is the floor of the base-2 logarithm (fuel-indexed form). -/
theorem log2fuel_spec (fuel : Nat) : ∀ n, 1 ≤ n → n ≤ fuel →
    2 ^ log2fuel fuel n ≤ n ∧ n < 2 ^ (log2fuel fuel n + 1) := by
  induction fuel with
  | zero => intro n h1 h2; omega
  | succ fuel ih =>
    intro n h1 h2
    by_cases h : 2 ≤ n
    · have ihd := ih (n / 2) (by omega) (by omega)
      rcases ihd with ⟨hlo, hhi⟩
      have e1 : 2 ^ (log2fuel fuel (n / 2) + 1) = 2 * 2 ^ log2fuel fuel (n / 2) := by
        rw [pow_succ]; ring
      have e2 : 2 ^ (log2fuel fuel (n / 2) + 1 + 1)
          = 2 * 2 ^ (log2fuel fuel (n / 2) + 1) := by
        rw [pow_succ]; ring
      simp only [log2fuel, if_pos h]
      omega
    · interval_cases n
      simp [log2fuel]

/-- `log2` computes `⌊log₂ n⌋` for every positive `n`. -/
theorem log2_spec (n : Nat) (h : 1 ≤ n) :
    2 ^ log2 n ≤ n ∧ n < 2 ^ (log2 n + 1) :=
  log2fuel_spec n n h (Nat.le_refl n)

/-- `scanBucket` is `List.find?` with the capacity predicate. -/
theorem scanBucket_eq_find? (size : Nat) (l : List MemGap) :
    scanBucket size l = l.find? (fun g => decide (size ≤ g.size)) := by
  induction l with
  | nil => rfl
  | cons g t ih =>
    by_cases h : size ≤ g.size
    · simp [scanBucket, List.find?, h]
    · simp [scanBucket, List.find?, h, ih]

/-- `nthBucket` past the end of the array is empty. -/
theorem nthBucket_eq_nil_of_le (bs : List (List MemGap)) :
    ∀ i, bs.length ≤ i → nthBucket bs i = [] := by
  induction bs with
  | nil => intro i _; cases i <;> rfl
  | cons b t ih =>
    intro i h
    cases i with
    | zero => simp at h
    | succ j => exact ih j (by simpa using h)

/-- Splitting a `drop` at an in-range index into head bucket and tail. -/
theorem drop_eq_nthBucket_cons (bs : List (List MemGap)) :
    ∀ i, i < bs.length → bs.drop i = nthBucket bs i :: bs.drop (i + 1) := by
  induction bs with
  | nil => intro i h; simp at h
  | cons b t ih =>
    intro i h
    cases i with
    | zero => rfl
    | succ j => simpa [nthBucket] using ih j (by simpa using h)

/-- The outer loop of `gap_get`, unrolled: with enough fuel it returns the
first fitting gap of the flattened bucket segment `i ..< GAPS_BUCKETS_COUNT`. -/
theorem gapGetFrom_eq (buckets : List (List MemGap)) (size : Nat) :
    ∀ fuel i, GAPS_BUCKETS_COUNT - i ≤ fuel →
      gapGetFrom buckets size fuel i
        = ((buckets.drop i).take (GAPS_BUCKETS_COUNT - i)).flatten.find?
            (fun g => decide (size ≤ g.size)) := by
  intro fuel
  induction fuel with
  | zero =>
    intro i h
    have hz : GAPS_BUCKETS_COUNT - i = 0 := by omega
    simp [gapGetFrom, hz]
  | succ fuel ih =>
    intro i h
    by_cases hi : i < GAPS_BUCKETS_COUNT
    · have hstep : GAPS_BUCKETS_COUNT - i = (GAPS_BUCKETS_COUNT - (i + 1)) + 1 := by
        omega
      by_cases hlen : i < buckets.length
      · rw [gapGetFrom, if_pos hi, scanBucket_eq_find?,
          drop_eq_nthBucket_cons buckets i hlen, hstep, List.take_succ_cons,
          List.flatten_cons, List.find?_append]
        cases hf : (nthBucket buckets i).find? (fun g => decide (size ≤ g.size)) with
        | some g => rfl
        | none => rw [Option.none_or]; exact ih (i + 1) (by omega)
      · have hd1 : buckets.drop i = [] :=
          List.drop_eq_nil_of_le (by omega)
        have hd2 : buckets.drop (i + 1) = [] :=
          List.drop_eq_nil_of_le (by omega)
        have hnth : nthBucket buckets i = [] :=
          nthBucket_eq_nil_of_le buckets i (by omega)
        rw [gapGetFrom, if_pos hi, hnth]
        simp only [scanBucket]
        rw [ih (i + 1) (by omega), hd1, hd2]
        simp
    · have hz : GAPS_BUCKETS_COUNT - i = 0 := by omega
      rw [gapGetFrom, if_neg hi, hz]
      simp

/-- Claim C7: `gap_get` walks the buckets upward from index
`min(⌊log₂ size⌋, GAPS_BUCKETS_COUNT − 1)` and, scanning each bucket front to
back, returns the first gap whose size is at least `size` (the `find?` over
the flattened bucket segment); it returns `none` iff every gap in those
buckets is smaller than `size`.  The state is untouched (`gap_get` is pure). -/
theorem c7_gap_get_first_fit (buckets : List (List MemGap)) (size : Nat) :
    gap_get buckets size
      = ((buckets.drop (get_gap_bucket_index size)).take
            (GAPS_BUCKETS_COUNT - get_gap_bucket_index size)).flatten.find?
          (fun g => decide (size ≤ g.size)) ∧
    (gap_get buckets size = none ↔
      ∀ g ∈ ((buckets.drop (get_gap_bucket_index size)).take
            (GAPS_BUCKETS_COUNT - get_gap_bucket_index size)).flatten,
        g.size < size) := by
  have h := gapGetFrom_eq buckets size GAPS_BUCKETS_COUNT
    (get_gap_bucket_index size) (Nat.sub_le _ _)
  refine ⟨h, ?_⟩
  rw [gap_get, h, List.find?_eq_none]
  constructor
  · intro hall g hg
    have := hall g hg
    simpa [Nat.lt_iff_add_one_le, Nat.not_le] using this
  · intro hall g hg
    simpa [Nat.not_le] using hall g hg

/-- `modifyNth` preserves the bucket count. -/
theorem length_modifyNth (f : List MemGap → List MemGap) :
    ∀ i bs, (modifyNth f i bs).length = bs.length := by
  intro i bs
  induction bs generalizing i with
  | nil => cases i <;> rfl
  | cons b t ih => cases i with
    | zero => rfl
    | succ j => simpa [modifyNth] using ih j

/-- Reading the modified bucket back. -/
theorem nthBucket_modifyNth_self (f : List MemGap → List MemGap) :
    ∀ i bs, i < bs.length →
      nthBucket (modifyNth f i bs) i = f (nthBucket bs i) := by
  intro i bs
  induction bs generalizing i with
  | nil => intro h; simp at h
  | cons b t ih =>
    intro h
    cases i with
    | zero => rfl
    | succ j => simpa [modifyNth, nthBucket] using ih j (by simpa using h)

/-- Reading an unmodified bucket back. -/
theorem nthBucket_modifyNth_ne (f : List MemGap → List MemGap) :
    ∀ i j bs, j ≠ i → nthBucket (modifyNth f i bs) j = nthBucket bs j := by
  intro i j bs
  induction bs generalizing i j with
  | nil => intro _; cases i <;> rfl
  | cons b t ih =>
    intro hne
    cases i with
    | zero => cases j with
      | zero => exact absurd rfl hne
      | succ j' => rfl
    | succ i' => cases j with
      | zero => rfl
      | succ j' => simpa [modifyNth, nthBucket] using ih i' j' (by omega)

/-- Consing one gap onto bucket `i` permutes the flattened buckets with the
gap in front. -/
theorem flatten_modifyNth_cons_perm (g : MemGap) :
    ∀ i bs, i < bs.length →
      (modifyNth (fun b => g :: b) i bs).flatten.Perm (g :: bs.flatten) := by
  intro i bs
  induction bs generalizing i with
  | nil => intro h; simp at h
  | cons b t ih =>
    intro h
    cases i with
    | zero => simp [modifyNth]
    | succ j =>
      have ihp := ih j (by simpa using h)
      have h1 : (modifyNth (fun b => g :: b) (j + 1) (b :: t)).flatten
          = b ++ (modifyNth (fun b => g :: b) j t).flatten := by
        simp [modifyNth]
      rw [h1]
      exact (ihp.append_left b).trans (by simp [List.perm_middle])

/-- `eraseByBegin` only removes elements. -/
theorem eraseByBegin_sublist (b : Nat) :
    ∀ l, (eraseByBegin b l).Sublist l := by
  intro l
  induction l with
  | nil => simp [eraseByBegin]
  | cons g t ih =>
    by_cases h : g.begin = b
    · simp only [eraseByBegin, if_pos h]
      exact List.sublist_cons_self g t
    · simp only [eraseByBegin, if_neg h]
      exact ih.cons₂ g

/-- Erasing inside one bucket only removes elements of the flattened buckets. -/
theorem flatten_modifyNth_erase_sublist (b : Nat) :
    ∀ i bs, (modifyNth (eraseByBegin b) i bs).flatten.Sublist bs.flatten := by
  intro i bs
  induction bs generalizing i with
  | nil => simp [modifyNth]
  | cons bk t ih =>
    cases i with
    | zero =>
      simpa [modifyNth] using (eraseByBegin_sublist b bk).append (List.Sublist.refl t.flatten)
    | succ j =>
      simpa [modifyNth] using (List.Sublist.refl bk).append (ih j)

/-- Membership survives `eraseByBegin` for gaps with a different `begin`. -/
theorem mem_eraseByBegin_of_ne (b : Nat) (x : MemGap) :
    ∀ l, x ∈ l → x.begin ≠ b → x ∈ eraseByBegin b l := by
  intro l
  induction l with
  | nil => intro h; simp at h
  | cons g t ih =>
    intro hm hne
    by_cases h : g.begin = b
    · simp only [eraseByBegin, if_pos h]
      rcases List.mem_cons.1 hm with rfl | hm'
      · exact absurd h hne
      · exact hm'
    · simp only [eraseByBegin, if_neg h]
      rcases List.mem_cons.1 hm with rfl | hm'
      · exact List.mem_cons_self x _
      · exact List.mem_cons_of_mem g (ih hm' hne)

/-- After erasing the unique gap with `begin = b`, no gap with that `begin`
remains (uniqueness given by `Nodup` of the begins). -/
theorem begin_ne_of_mem_eraseByBegin (b : Nat) (x : MemGap) :
    ∀ l, (l.map MemGap.begin).Nodup → x ∈ eraseByBegin b l → x.begin ≠ b := by
  intro l
  induction l with
  | nil => intro _ h; simp [eraseByBegin] at h
  | cons g t ih =>
    intro hnd hm
    have hnd' : (t.map MemGap.begin).Nodup := (List.nodup_cons.1 hnd).2
    by_cases h : g.begin = b
    · simp only [eraseByBegin, if_pos h] at hm
      intro hx
      have hgnotin : g.begin ∉ t.map MemGap.begin := (List.nodup_cons.1 hnd).1
      exact hgnotin (by
        rw [h, ← hx]
        exact List.mem_map_of_mem MemGap.begin hm)
    · simp only [eraseByBegin, if_neg h] at hm
      rcases List.mem_cons.1 hm with rfl | hm'
      · exact h
      · exact ih hnd' hm'

/-- Every bucket is a sublist of the flattened bucket array. -/
theorem nthBucket_sublist_flatten :
    ∀ (bs : List (List MemGap)) j, (nthBucket bs j).Sublist bs.flatten := by
  intro bs
  induction bs with
  | nil => intro j; cases j <;> simp [nthBucket]
  | cons b t ih =>
    intro j
    cases j with
    | zero => simp [nthBucket, List.sublist_append_left]
    | succ j' =>
      exact (ih j').trans (by simp [List.sublist_append_right])

/-- A member of some bucket is a member of the flattened bucket array. -/
theorem mem_flatten_of_mem_nthBucket {bs : List (List MemGap)} {j : Nat}
    {g : MemGap} (h : g ∈ nthBucket bs j) : g ∈ bs.flatten :=
  (nthBucket_sublist_flatten bs j).subset h

/-- A member of the flattened bucket array is in some in-range bucket. -/
theorem mem_nthBucket_of_mem_flatten {bs : List (List MemGap)} {g : MemGap}
    (h : g ∈ bs.flatten) : ∃ j < bs.length, g ∈ nthBucket bs j := by
  induction bs with
  | nil => simp at h
  | cons b t ih =>
    rw [List.flatten_cons, List.mem_append] at h
    rcases h with h | h
    · exact ⟨0, by simp, h⟩
    · rcases ih h with ⟨j, hj, hm⟩
      exact ⟨j + 1, by simpa using hj, hm⟩

/-- The bucket index is always in range. -/
theorem get_gap_bucket_index_lt (size : Nat) :
    get_gap_bucket_index size < GAPS_BUCKETS_COUNT := by
  have h : get_gap_bucket_index size ≤ GAPS_BUCKETS_COUNT - 1 :=
    Nat.min_le_right _ _
  have hc : GAPS_BUCKETS_COUNT = 8 := rfl
  omega

/-- `gap_insert` preserves the bucket-consistency invariant (fresh `begin`). -/
theorem gapInv_insert {r : GapReg} (h : GapInv r) (g : MemGap)
    (hf : ∀ g' ∈ r.gaps, g'.begin ≠ g.begin) : GapInv (r.gap_insert g) := by
  obtain ⟨hlen, hnd, hfnd, hin, hsound⟩ := h
  have hidx : get_gap_bucket_index g.size < r.buckets.length := by
    rw [hlen]; exact get_gap_bucket_index_lt g.size
  refine ⟨?_, ?_, ?_, ?_, ?_⟩
  · simpa [GapReg.gap_insert, length_modifyNth] using hlen
  · rw [GapReg.gap_insert]
    simp only [List.map_cons, List.nodup_cons]
    refine ⟨?_, hnd⟩
    intro hmem
    obtain ⟨g', hg'mem, hg'b⟩ := List.mem_map.1 hmem
    exact hf g' hg'mem hg'b
  · have hperm :=
      (flatten_modifyNth_cons_perm g (get_gap_bucket_index g.size) r.buckets
        hidx).map MemGap.begin
    rw [GapReg.gap_insert]
    rw [hperm.nodup_iff]
    simp only [List.map_cons, List.nodup_cons]
    refine ⟨?_, hfnd⟩
    intro hmem
    obtain ⟨x, hxmem, hxb⟩ := List.mem_map.1 hmem
    obtain ⟨j, hj, hxj⟩ := mem_nthBucket_of_mem_flatten hxmem
    have hx := hsound j (by rwa [hlen] at hj) x hxj
    exact hf x hx.1 hxb
  · intro g' hg'
    rw [GapReg.gap_insert] at hg' ⊢
    simp only at hg'
    rcases List.mem_cons.1 hg' with rfl | hg'mem
    · rw [nthBucket_modifyNth_self _ _ _ hidx]
      exact List.mem_cons_self g' _
    · have hold := hin g' hg'mem
      by_cases hcase : get_gap_bucket_index g'.size = get_gap_bucket_index g.size
      · rw [hcase] at hold
        rw [hcase, nthBucket_modifyNth_self _ _ _ hidx]
        exact List.mem_cons_of_mem g hold
      · rw [nthBucket_modifyNth_ne _ _ _ _ hcase]
        exact hold
  · intro j hj x hx
    rw [GapReg.gap_insert] at hx ⊢
    simp only at hx ⊢
    by_cases hcase : j = get_gap_bucket_index g.size
    · subst hcase
      rw [nthBucket_modifyNth_self _ _ _ hidx] at hx
      rcases List.mem_cons.1 hx with rfl | hxmem
      · exact ⟨List.mem_cons_self x _, rfl⟩
      · have hs := hsound _ hj x hxmem
        exact ⟨List.mem_cons_of_mem g hs.1, hs.2⟩
    · rw [nthBucket_modifyNth_ne _ _ _ _ hcase] at hx
      have hs := hsound j hj x hx
      exact ⟨List.mem_cons_of_mem g hs.1, hs.2⟩

/-- `gap_remove` preserves the bucket-consistency invariant (present `begin`). -/
theorem gapInv_remove {r : GapReg} (h : GapInv r) (b : Nat)
    (hp : ∃ g ∈ r.gaps, g.begin = b) : GapInv (r.gap_remove b) := by
  obtain ⟨hlen, hnd, hfnd, hin, hsound⟩ := h
  obtain ⟨g0, hg0mem, hg0b⟩ := hp
  obtain ⟨gf, hfind⟩ : ∃ gf, r.gaps.find? (fun g => g.begin == b) = some gf := by
    cases hf : r.gaps.find? (fun g => g.begin == b) with
    | some gf => exact ⟨gf, rfl⟩
    | none =>
      exact absurd (by simpa using List.find?_eq_none.1 hf g0 hg0mem) (by simp [hg0b])
  have hgfmem : gf ∈ r.gaps := List.mem_of_find?_eq_some hfind
  have hgfb : gf.begin = b := by simpa using List.find?_some hfind
  have hidx : get_gap_bucket_index gf.size < r.buckets.length := by
    rw [hlen]; exact get_gap_bucket_index_lt gf.size
  rw [GapReg.gap_remove, hfind]
  refine ⟨?_, ?_, ?_, ?_, ?_⟩
  · simpa [length_modifyNth] using hlen
  · exact hnd.sublist ((eraseByBegin_sublist b r.gaps).map MemGap.begin)
  · exact hfnd.sublist
      ((flatten_modifyNth_erase_sublist b (get_gap_bucket_index gf.size)
        r.buckets).map MemGap.begin)
  · intro g' hg'
    simp only at hg'
    have hg'mem : g' ∈ r.gaps := (eraseByBegin_sublist b r.gaps).subset hg'
    have hg'ne : g'.begin ≠ b := begin_ne_of_mem_eraseByBegin b g' r.gaps hnd hg'
    have hold := hin g' hg'mem
    by_cases hcase : get_gap_bucket_index g'.size = get_gap_bucket_index gf.size
    · rw [hcase] at hold
      rw [hcase, nthBucket_modifyNth_self _ _ _ hidx]
      exact mem_eraseByBegin_of_ne b g' _ hold hg'ne
    · rw [nthBucket_modifyNth_ne _ _ _ _ hcase]
      exact hold
  · intro j hj x hx
    simp only at hx ⊢
    by_cases hcase : j = get_gap_bucket_index gf.size
    · subst hcase
      rw [nthBucket_modifyNth_self _ _ _ hidx] at hx
      have hxold : x ∈ nthBucket r.buckets (get_gap_bucket_index gf.size) :=
        (eraseByBegin_sublist b _).subset hx
      have hbnd : ((nthBucket r.buckets (get_gap_bucket_index gf.size)).map
          MemGap.begin).Nodup :=
        hfnd.sublist
          ((nthBucket_sublist_flatten r.buckets _).map MemGap.begin)
      have hxne : x.begin ≠ b := begin_ne_of_mem_eraseByBegin b x _ hbnd hx
      have hs := hsound _ (by rwa [hlen] at hidx) x hxold
      exact ⟨mem_eraseByBegin_of_ne b x _ hs.1 hxne, hs.2⟩
    · rw [nthBucket_modifyNth_ne _ _ _ _ hcase] at hx
      have hs := hsound j hj x hx
      have hxne : x.begin ≠ b := by
        intro hxb
        have : x = gf :=
          List.inj_on_of_nodup_map hnd hs.1 hgfmem (by rw [hxb, hgfb])
        exact hcase (by rw [hs.2, this])
      exact ⟨mem_eraseByBegin_of_ne b x _ hs.1 hxne, hs.2⟩

/-- Claim C8: after every sequence of `gap_insert` / `gap_remove` operations
(each respecting the presence preconditions the source `unwrap`s on), the
bucket-consistency invariant holds: every gap of the ordered index is in
exactly the bucket `min(⌊log₂ size⌋, GAPS_BUCKETS_COUNT − 1)` of its size, and
a gap absent from the ordered index is in no bucket. -/
theorem c8_bucket_consistency {r0 r : GapReg} (h0 : GapInv r0)
    (hr : GapReach r0 r) : GapInv r := by
  induction hr with
  | refl => exact h0
  | insert g _ hf ih => exact gapInv_insert ih g hf
  | remove b _ hp ih => exact gapInv_remove ih b hp

/-- Claim C8 (witness): starting from an empty, trivially consistent registry,
one `gap_insert` reaches a state and the theorem yields its invariant. -/
theorem c8_bucket_consistency_witness :
    GapInv (GapReg.gap_insert
      { gaps := [], buckets := [[], [], [], [], [], [], [], []] }
      { begin := 0x40000000, size := 4 }) :=
  c8_bucket_consistency (by decide)
    (GapReach.insert { begin := 0x40000000, size := 4 }
      (GapReach.refl { gaps := [], buckets := [[], [], [], [], [], [], [], []] })
      (by decide))
